import Mathlib

/-!
# Verification of the download-manager core (`src-tauri/src/downloads.rs`)

Shallow embedding of the Rust source into Lean 4, together with theorems
settling the frozen claims about the natural-language specification.

Modelling conventions:
* Rust `u64` byte counters are modelled as `Nat` (no claim depends on wrap-around).
* Millisecond timestamps (`now_ms`) are an explicit `Int` parameter `now` of each
  operation, since wall-clock time is an external input.
* The `HashMap<String, DownloadRuntime>` registry is an association list with
  unique keys; `HashMap::insert` replaces an existing binding, `remove` drops it.
* A `CancellationToken` is modelled by its observable tripped flag; creating a
  fresh token installs an untripped flag.
* The filesystem is an oracle `String → Bool` answering `Path::exists`.
* `f64` rate-limit arithmetic is modelled over `ℚ` (the claims reference only the
  control structure — comparison, subtraction, `min` with `1.5` — not rounding).
-/

namespace FDM

/-! ## Character utilities (`sanitize_file_name`, downloads.rs lines 114-123) -/

/-- Rust `char::is_whitespace`: the Unicode `White_Space` property,
spelled out code point by code point. -/
def isRustWhitespace (c : Char) : Bool :=
  let n := c.toNat
  decide ((9 ≤ n ∧ n ≤ 13) ∨ n = 32 ∨ n = 0x85 ∨ n = 0xA0 ∨ n = 0x1680 ∨
    (0x2000 ≤ n ∧ n ≤ 0x200A) ∨ n = 0x2028 ∨ n = 0x2029 ∨ n = 0x202F ∨
    n = 0x205F ∨ n = 0x3000)

/-- The reserved characters replaced by `sanitize_file_name`
(`['\\', '/', ':', '*', '?', '"', '<', '>', '|']`). -/
def reservedChar (c : Char) : Bool :=
  c == '\\' || c == '/' || c == ':' || c == '*' || c == '?' || c == '\"' ||
  c == '<' || c == '>' || c == '|'

/-- One step of Rust `str::replace(['\\','/',':','*','?','"','<','>','|'], "-")`:
since the replacement is the single character `-`, the whole replace is a map. -/
def replChar (c : Char) : Char :=
  if reservedChar c then '-' else c

/-- Rust `str::trim` on a character list: drop Unicode whitespace from both ends
(left end first, then the right end via `reverse`). -/
def rustTrimL (l : List Char) : List Char :=
  ((l.dropWhile isRustWhitespace).reverse.dropWhile isRustWhitespace).reverse

/-- `sanitize_file_name` (downloads.rs 114-123) on a character list:
trim, replace each reserved character by `-`, and fall back to `"download"`
when the result is empty. -/
def sanitizeL (l : List Char) : List Char :=
  if (rustTrimL l).map replChar = [] then "download".data
  else (rustTrimL l).map replChar

/-- `sanitize_file_name` (downloads.rs 114-123). -/
def sanitize_file_name (s : String) : String :=
  String.mk (sanitizeL s.data)

/-! ### Helper lemmas about `dropWhile` -/

theorem dropWhile_head?_false {α : Type} (p : α → Bool) :
    ∀ (l : List α) (c : α), (l.dropWhile p).head? = some c → p c = false := by
  intro l
  induction l with
  | nil => intro c h; simp [List.dropWhile] at h
  | cons a t ih =>
    intro c h
    rw [List.dropWhile_cons] at h
    by_cases ha : p a = true
    · exact ih c (by simpa [ha] using h)
    · simp [ha] at h
      subst h
      exact Bool.eq_false_iff.mpr ha

theorem dropWhile_eq_self_of_head? {α : Type} (p : α → Bool) (l : List α)
    (h : ∀ c, l.head? = some c → p c = false) : l.dropWhile p = l := by
  cases l with
  | nil => rfl
  | cons a t =>
    have ha : p a = false := h a rfl
    simp [List.dropWhile_cons, ha]

theorem dropWhile_getLast? {α : Type} (p : α → Bool) :
    ∀ (l : List α), l.dropWhile p ≠ [] → (l.dropWhile p).getLast? = l.getLast? := by
  intro l
  induction l with
  | nil => intro h; simp [List.dropWhile] at h
  | cons a t ih =>
    intro h
    rw [List.dropWhile_cons] at h ⊢
    by_cases ha : p a = true
    · simp only [ha, if_true] at h ⊢
      have ht : t ≠ [] := by
        intro ht; rw [ht] at h; simp [List.dropWhile] at h
      rw [ih h]
      cases t with
      | nil => exact absurd rfl ht
      | cons b t2 => exact (List.getLast?_cons_cons).symm
    · simp [ha]

theorem dropWhile_map_comm {α : Type} (p : α → Bool) (f : α → α)
    (hf : ∀ c, p (f c) = p c) (l : List α) :
    (l.map f).dropWhile p = (l.dropWhile p).map f := by
  induction l with
  | nil => rfl
  | cons a t ih =>
    simp only [List.map_cons, List.dropWhile_cons, hf a]
    by_cases ha : p a = true
    · simpa [ha] using ih
    · simp [ha]

/-! ### Properties of the trim + replace pipeline -/

theorem isRustWhitespace_replChar (c : Char) :
    isRustWhitespace (replChar c) = isRustWhitespace c := by
  unfold replChar
  by_cases h : reservedChar c = true
  · have hc : c = '\\' ∨ c = '/' ∨ c = ':' ∨ c = '*' ∨ c = '?' ∨ c = '\"' ∨
        c = '<' ∨ c = '>' ∨ c = '|' := by
      simp only [reservedChar, Bool.or_eq_true, beq_iff_eq, or_assoc] at h
      exact h
    rw [if_pos h]
    rcases hc with h1 | h1 | h1 | h1 | h1 | h1 | h1 | h1 | h1 <;> subst h1 <;> decide
  · rw [if_neg h]

theorem replChar_idem (c : Char) : replChar (replChar c) = replChar c := by
  by_cases h : reservedChar c = true
  · have hdash : reservedChar '-' = false := by decide
    simp [replChar, h, hdash]
  · simp [replChar, h]

theorem map_replChar_idem (l : List Char) :
    (l.map replChar).map replChar = l.map replChar := by
  induction l with
  | nil => rfl
  | cons a t ih => simp [List.map_cons, ih, replChar_idem]

theorem rustTrimL_map (f : Char → Char)
    (hf : ∀ c, isRustWhitespace (f c) = isRustWhitespace c) (l : List Char) :
    rustTrimL (l.map f) = (rustTrimL l).map f := by
  unfold rustTrimL
  rw [dropWhile_map_comm _ f hf, ← List.map_reverse, dropWhile_map_comm _ f hf,
    ← List.map_reverse]

theorem rustTrimL_idem (l : List Char) : rustTrimL (rustTrimL l) = rustTrimL l := by
  unfold rustTrimL
  set u := l.dropWhile isRustWhitespace with hu
  set v := u.reverse.dropWhile isRustWhitespace with hv
  by_cases hvnil : v = []
  · simp [hvnil]
  · have hvhead : ∀ c, v.head? = some c → isRustWhitespace c = false := by
      intro c hc
      exact dropWhile_head?_false isRustWhitespace u.reverse c (hv ▸ hc)
    have huhead : ∀ c, u.head? = some c → isRustWhitespace c = false := by
      intro c hc
      exact dropWhile_head?_false isRustWhitespace l c (hu ▸ hc)
    have hrevhead : ∀ c, v.reverse.head? = some c → isRustWhitespace c = false := by
      intro c hc
      rw [List.head?_reverse] at hc
      have h1 : v.getLast? = u.reverse.getLast? := by
        rw [hv]; exact dropWhile_getLast? isRustWhitespace u.reverse (hv ▸ hvnil)
      rw [h1, List.getLast?_reverse] at hc
      exact huhead c hc
    rw [dropWhile_eq_self_of_head? _ _ hrevhead, List.reverse_reverse,
      dropWhile_eq_self_of_head? _ _ hvhead]

theorem sanitizeL_ne_nil (l : List Char) : sanitizeL l ≠ [] := by
  unfold sanitizeL
  by_cases h : (rustTrimL l).map replChar = []
  · rw [if_pos h]; decide
  · rw [if_neg h]; exact h

theorem sanitizeL_idem (l : List Char) : sanitizeL (sanitizeL l) = sanitizeL l := by
  by_cases h : (rustTrimL l).map replChar = []
  · have h1 : sanitizeL l = "download".data := by unfold sanitizeL; exact if_pos h
    rw [h1]
    decide
  · have h1 : sanitizeL l = (rustTrimL l).map replChar := by unfold sanitizeL; exact if_neg h
    rw [h1]
    unfold sanitizeL
    rw [rustTrimL_map replChar isRustWhitespace_replChar, rustTrimL_idem, map_replChar_idem]
    exact if_neg h

theorem sanitize_file_name_ne_empty (s : String) : sanitize_file_name s ≠ "" := by
  unfold sanitize_file_name
  intro h
  have : sanitizeL s.data = "".data := congrArg String.data h
  exact sanitizeL_ne_nil s.data this

theorem sanitize_file_name_idem_aux (s : String) :
    sanitize_file_name (sanitize_file_name s) = sanitize_file_name s := by
  unfold sanitize_file_name
  exact congrArg String.mk (sanitizeL_idem s.data)

/-- C6: `sanitize_file_name` trims, replaces each reserved character with `-`,
falls back to `"download"` when empty; consequently it never returns the empty
string and is idempotent. -/
theorem c6_sanitize_nonempty_idem (s : String) :
    sanitize_file_name s ≠ "" ∧
    sanitize_file_name (sanitize_file_name s) = sanitize_file_name s :=
  ⟨sanitize_file_name_ne_empty s, sanitize_file_name_idem_aux s⟩

/-! ## Path utilities

Rust `Path` semantics for the pieces the source uses: the file-name component
(the part after the last `/`), `file_stem` / `extension` (split at the last `.`
of the file name, with no extension when there is no dot or when the only dot
is the leading one of a hidden file), and `with_extension`. -/

/-- The file-name component of a path: the characters after the last `/`
(the whole path when it has no `/`). -/
def lastCompL (p : List Char) : List Char :=
  (p.reverse.takeWhile (fun c => c != '/')).reverse

/-- The complement of `lastCompL`: everything up to and including the last `/`. -/
def dirPartL (p : List Char) : List Char :=
  (p.reverse.dropWhile (fun c => c != '/')).reverse

theorem dirPartL_append_lastCompL (p : List Char) :
    dirPartL p ++ lastCompL p = p := by
  unfold dirPartL lastCompL
  rw [← List.reverse_append, List.takeWhile_append_dropWhile, List.reverse_reverse]

/-- Rust `Path::file_stem` / `Path::extension` on a file-name component:
split at the last `.`; no extension if there is no dot or if the only dot is
the leading character (hidden file). Returns `(stem, extension?)`. -/
def splitExtL (f : List Char) : List Char × Option (List Char) :=
  if f.reverse.dropWhile (fun c => c != '.') = [] ∨
      (f.reverse.dropWhile (fun c => c != '.')).tail = [] then (f, none)
  else ((f.reverse.dropWhile (fun c => c != '.')).tail.reverse,
        some (f.reverse.takeWhile (fun c => c != '.')).reverse)

theorem splitExtL_some (f s e : List Char) (h : splitExtL f = (s, some e)) :
    f = s ++ '.' :: e := by
  unfold splitExtL at h
  by_cases hcond : f.reverse.dropWhile (fun c => c != '.') = [] ∨
      (f.reverse.dropWhile (fun c => c != '.')).tail = []
  · rw [if_pos hcond] at h
    exact absurd (congrArg Prod.snd h) (by simp)
  · rw [if_neg hcond] at h
    push_neg at hcond
    cases hd : f.reverse.dropWhile (fun c => c != '.') with
    | nil => exact absurd hd hcond.1
    | cons c tl =>
      have hc : (c != '.') = false :=
        dropWhile_head?_false _ f.reverse c (by rw [hd]; rfl)
      have hc2 : c = '.' := by simpa using hc
      have hsplit : f.reverse.takeWhile (fun c => c != '.') ++ c :: tl = f.reverse := by
        rw [← hd]; exact List.takeWhile_append_dropWhile _ _
      rw [hd] at h
      have hs : s = tl.reverse := by
        have h5 := congrArg Prod.fst h
        simpa using h5.symm
      have he : e = (f.reverse.takeWhile (fun c => c != '.')).reverse := by
        have h5 := congrArg Prod.snd h
        simpa using h5.symm
      have hf : f = (f.reverse.takeWhile (fun c => c != '.') ++ c :: tl).reverse := by
        rw [hsplit, List.reverse_reverse]
      rw [hf, List.reverse_append, hc2, hs, he]
      simp

theorem splitExtL_none (f s : List Char) (h : splitExtL f = (s, none)) : s = f := by
  unfold splitExtL at h
  by_cases hcond : f.reverse.dropWhile (fun c => c != '.') = [] ∨
      (f.reverse.dropWhile (fun c => c != '.')).tail = []
  · rw [if_pos hcond] at h
    exact (congrArg Prod.fst h).symm
  · rw [if_neg hcond] at h
    exact absurd (congrArg Prod.snd h) (by simp)

/-- `temp_path` computation in `start_download` (downloads.rs 270-275):
take `final_path.extension()`, append `.part` to it (or use `part` when there
is none), and apply `Path::with_extension`. `with_extension` replaces the
extension of the file-name component, and does nothing when the path has no
file-name component (`""`, `"."`, `".."`). -/
def temp_path_of (p : String) : String :=
  if lastCompL p.data = [] ∨ lastCompL p.data = ['.'] ∨ lastCompL p.data = ['.', '.'] then p
  else
    String.mk (dirPartL p.data ++ (splitExtL (lastCompL p.data)).1 ++ '.' ::
      (match (splitExtL (lastCompL p.data)).2 with
        | some e => e ++ ".part".data
        | none => "part".data))

/-- C7: for every path whose file-name component is a regular component
(nonempty, not `.` or `..`), the temp path is the save path with `.part`
appended after the existing extension — the extension is never replaced. -/
theorem c7_temp_path_appends_part (p : String)
    (h1 : lastCompL p.data ≠ []) (h2 : lastCompL p.data ≠ ['.'])
    (h3 : lastCompL p.data ≠ ['.', '.']) :
    temp_path_of p = p ++ ".part" := by
  unfold temp_path_of
  rw [if_neg (by push_neg; exact ⟨h1, h2, h3⟩)]
  have hp : p ++ ".part" = String.mk (p.data ++ ".part".data) := rfl
  rw [hp]
  cases hse : (splitExtL (lastCompL p.data)).2 with
  | some e =>
    have hsplit : lastCompL p.data = (splitExtL (lastCompL p.data)).1 ++ '.' :: e :=
      splitExtL_some _ _ _ (by rw [← hse])
    apply congrArg String.mk
    conv_rhs => rw [← dirPartL_append_lastCompL p.data, hsplit]
    simp [List.append_assoc]
  | none =>
    have hstem : (splitExtL (lastCompL p.data)).1 = lastCompL p.data :=
      splitExtL_none _ _ (by rw [← hse])
    apply congrArg String.mk
    rw [hstem]
    conv_rhs => rw [← dirPartL_append_lastCompL p.data]

/-- C7 witness. -/
theorem c7_witness : temp_path_of "file.iso" = "file.iso.part" := by
  have h := c7_temp_path_appends_part "file.iso" (by decide) (by decide) (by decide)
  exact h.trans (by decide)

/-! ## `build_unique_path` (downloads.rs 139-162) -/

/-- `directory.join(file_name)` rendered through `display()`, for a directory
without a trailing separator. -/
def pathJoin (dir name : String) : String := dir ++ "/" ++ name

/-- `Path::new(file_name).file_stem().and_then(to_str).unwrap_or("download")`
(downloads.rs 144-147): the stem of the file-name component, with the
`"download"` fallback when there is no file-name component. -/
def file_stem_of (file_name : String) : String :=
  if lastCompL file_name.data = [] ∨ lastCompL file_name.data = ['.'] ∨
      lastCompL file_name.data = ['.', '.'] then "download"
  else String.mk (splitExtL (lastCompL file_name.data)).1

/-- `Path::new(file_name).extension().map(|v| format!(".{v}")).unwrap_or_default()`
(downloads.rs 148-152): the extension with its leading dot, or `""`. -/
def extension_of (file_name : String) : String :=
  if lastCompL file_name.data = [] ∨ lastCompL file_name.data = ['.'] ∨
      lastCompL file_name.data = ['.', '.'] then ""
  else
    match (splitExtL (lastCompL file_name.data)).2 with
    | some e => String.mk ('.' :: e)
    | none => ""

/-- One numbered candidate `format!("{stem} ({index}){extension}")` joined to
the directory (downloads.rs 155). -/
def candidate_path (dir stem extn : String) (k : Nat) : String :=
  pathJoin dir (stem ++ " (" ++ toString k ++ ")" ++ extn)

/-- The `for index in 1..=9999` loop of `build_unique_path` (downloads.rs
154-160): starting at index `k` with `fuel` iterations left, return the first
absent numbered candidate, or the initial `candidate` `c` when every numbered
candidate exists. `ex` answers `Path::exists`. -/
def unique_loop (ex : String → Bool) (dir stem extn : String) :
    Nat → Nat → String → String
  | _, 0, c => c
  | k, fuel + 1, c =>
    if ex (candidate_path dir stem extn k) = false then candidate_path dir stem extn k
    else unique_loop ex dir stem extn (k + 1) fuel c

/-- `build_unique_path` (downloads.rs 139-162). -/
def build_unique_path (ex : String → Bool) (dir file_name : String) : String :=
  if ex (pathJoin dir file_name) = false then pathJoin dir file_name
  else unique_loop ex dir (file_stem_of file_name) (extension_of file_name) 1 9999
    (pathJoin dir file_name)

theorem unique_loop_all_exist (ex : String → Bool) (dir stem extn : String) :
    ∀ (fuel k : Nat) (c : String),
      (∀ j, k ≤ j → j < k + fuel → ex (candidate_path dir stem extn j) = true) →
      unique_loop ex dir stem extn k fuel c = c := by
  intro fuel
  induction fuel with
  | zero => intro k c _; rfl
  | succ n ih =>
    intro k c h
    have hk : ex (candidate_path dir stem extn k) = true :=
      h k le_rfl (by omega)
    unfold unique_loop
    rw [hk]
    simp only [Bool.true_eq_false, if_false]
    exact ih (k + 1) c (fun j hj1 hj2 => h j (by omega) (by omega))

theorem unique_loop_finds_first (ex : String → Bool) (dir stem extn : String) :
    ∀ (fuel k : Nat) (c : String),
      (∃ j, k ≤ j ∧ j < k + fuel ∧ ex (candidate_path dir stem extn j) = false) →
      ∃ j, k ≤ j ∧ j < k + fuel ∧ ex (candidate_path dir stem extn j) = false ∧
        unique_loop ex dir stem extn k fuel c = candidate_path dir stem extn j ∧
        ∀ i, k ≤ i → i < j → ex (candidate_path dir stem extn i) = true := by
  intro fuel
  induction fuel with
  | zero => intro k c ⟨j, h1, h2, _⟩; omega
  | succ n ih =>
    intro k c ⟨j, hj1, hj2, hj3⟩
    by_cases hk : ex (candidate_path dir stem extn k) = false
    · refine ⟨k, le_rfl, by omega, hk, ?_, fun i hi1 hi2 => absurd (lt_of_le_of_lt hi1 hi2) (lt_irrefl k)⟩
      unfold unique_loop
      rw [hk]
      simp
    · have hktrue : ex (candidate_path dir stem extn k) = true := by
        cases hex : ex (candidate_path dir stem extn k) with
        | false => exact absurd hex hk
        | true => rfl
      have hjk : j ≠ k := by
        intro hjk; rw [hjk] at hj3; rw [hj3] at hktrue; exact Bool.false_ne_true hktrue
      obtain ⟨j2, h1, h2, h3, h4, h5⟩ :=
        ih (k + 1) c ⟨j, by omega, by omega, hj3⟩
      refine ⟨j2, by omega, by omega, h3, ?_, ?_⟩
      · unfold unique_loop
        rw [hktrue]
        simpa using h4
      · intro i hi1 hi2
        rcases Nat.eq_or_lt_of_le hi1 with hik | hik
        · rw [← hik]; exact hktrue
        · exact h5 i hik hi2

/-- C3 (amended): `build_unique_path` returns `dir/name` when that path does
not exist; otherwise it returns the first absent candidate
`dir/"{stem} (k){.ext}"` for `k = 1..9999` (which therefore does not exist);
and when the original path and all 9999 numbered candidates exist, it returns
the original `dir/name` — not the last candidate tried. -/
theorem c3_unique_path_amended (ex : String → Bool) (dir name : String) :
    (ex (pathJoin dir name) = false → build_unique_path ex dir name = pathJoin dir name) ∧
    (ex (pathJoin dir name) = true →
      (∃ k, 1 ≤ k ∧ k ≤ 9999 ∧
        ex (candidate_path dir (file_stem_of name) (extension_of name) k) = false) →
      ∃ k, 1 ≤ k ∧ k ≤ 9999 ∧
        ex (candidate_path dir (file_stem_of name) (extension_of name) k) = false ∧
        build_unique_path ex dir name =
          candidate_path dir (file_stem_of name) (extension_of name) k ∧
        ∀ i, 1 ≤ i → i < k →
          ex (candidate_path dir (file_stem_of name) (extension_of name) i) = true) ∧
    (ex (pathJoin dir name) = true →
      (∀ k, 1 ≤ k → k ≤ 9999 →
        ex (candidate_path dir (file_stem_of name) (extension_of name) k) = true) →
      build_unique_path ex dir name = pathJoin dir name) := by
  refine ⟨?_, ?_, ?_⟩
  · intro h
    unfold build_unique_path
    rw [h]
    simp
  · intro h ⟨k, hk1, hk2, hk3⟩
    unfold build_unique_path
    rw [h]
    simp only [Bool.true_eq_false, if_false]
    obtain ⟨j, h1, h2, h3, h4, h5⟩ :=
      unique_loop_finds_first ex dir (file_stem_of name) (extension_of name) 9999 1
        (pathJoin dir name) ⟨k, hk1, by omega, hk3⟩
    exact ⟨j, h1, by omega, h3, h4, h5⟩
  · intro h hall
    unfold build_unique_path
    rw [h]
    simp only [Bool.true_eq_false, if_false]
    exact unique_loop_all_exist ex dir (file_stem_of name) (extension_of name) 9999 1
      (pathJoin dir name) (fun j hj1 hj2 => hall j hj1 (by omega))

/-- C3 counterexample: on a filesystem where every path exists, the claim says
the result is the last candidate tried, `"d/a (9999).txt"`, but the code
returns the original `"d/a.txt"` (the loop never reassigns `candidate`). -/
theorem c3_counterexample :
    build_unique_path (fun _ => true) "d" "a.txt" = "d/a.txt" ∧
    ("d/a.txt" : String) ≠ "d/a (9999).txt" := by
  constructor
  · unfold build_unique_path
    simp only [Bool.true_eq_false, if_false]
    exact (unique_loop_all_exist (fun _ => true) "d" (file_stem_of "a.txt")
      (extension_of "a.txt") 9999 1 (pathJoin "d" "a.txt") (fun _ _ _ => rfl)).trans
      (by decide)
  · decide

/-- C3 witness: on a filesystem where only `"d/a.txt"` exists, the first
numbered candidate `"d/a (1).txt"` is returned. -/
theorem c3_witness :
    ∃ k, 1 ≤ k ∧ k ≤ 9999 ∧
      (fun s => s == "d/a.txt") (candidate_path "d" (file_stem_of "a.txt") (extension_of "a.txt") k) = false ∧
      build_unique_path (fun s => s == "d/a.txt") "d" "a.txt" =
        candidate_path "d" (file_stem_of "a.txt") (extension_of "a.txt") k ∧
      ∀ i, 1 ≤ i → i < k →
        (fun s => s == "d/a.txt") (candidate_path "d" (file_stem_of "a.txt") (extension_of "a.txt") i) = true :=
  (c3_unique_path_amended (fun s => s == "d/a.txt") "d" "a.txt").2.1 (by decide)
    ⟨1, le_rfl, by omega, by decide⟩

/-! ## Data model (downloads.rs 17-105) -/

/-- `DownloadStatus` (downloads.rs 19-27). -/
inductive DownloadStatus
  | queued
  | running
  | paused
  | completed
  | failed
  | canceled
  | external
  deriving DecidableEq

/-- `DownloadKind` (downloads.rs 31-35). -/
inductive DownloadKind
  | http
  | magnet
  | torrent
  deriving DecidableEq

/-- `DownloadInfo` (downloads.rs 55-70). `u64` counters are `Nat`,
millisecond timestamps are `Int`. -/
structure DownloadInfo where
  id : String
  url : String
  file_name : String
  save_path : String
  temp_path : String
  status : DownloadStatus
  total_bytes : Option Nat
  downloaded_bytes : Nat
  speed_bps : Nat
  error : Option String
  created_at : Int
  updated_at : Int
  resume_supported : Bool
  kind : DownloadKind
  deriving DecidableEq

/-- `DownloadRuntime` (downloads.rs 72-75): the record plus its
`CancellationToken`, modelled by the token's tripped flag. A freshly created
token is untripped. -/
structure DownloadRuntime where
  info : DownloadInfo
  cancelTripped : Bool
  deriving DecidableEq

/-- The registry `HashMap<String, DownloadRuntime>` as an association list
with unique keys. -/
abbrev Registry := List (String × DownloadRuntime)

/-- `downloads.get(id)` / `downloads.get_mut(id)` lookup. -/
def regGet (reg : Registry) (id : String) : Option DownloadRuntime :=
  match reg with
  | [] => none
  | e :: t => if e.1 = id then some e.2 else regGet t id

/-- Writing back through a `get_mut` borrow: replace the runtime bound to `id`. -/
def regSet (reg : Registry) (id : String) (d : DownloadRuntime) : Registry :=
  match reg with
  | [] => []
  | e :: t => if e.1 = id then (id, d) :: regSet t id d else e :: regSet t id d

/-- `downloads.remove(&id)` (unique keys: drops the binding of `id`). -/
def regRemove (reg : Registry) (id : String) : Registry :=
  match reg with
  | [] => []
  | e :: t => if e.1 = id then regRemove t id else e :: regRemove t id

/-- `downloads.insert(id, runtime)`: `HashMap::insert` replaces any existing
binding of the key. -/
def regInsert (reg : Registry) (id : String) (d : DownloadRuntime) : Registry :=
  (id, d) :: regRemove reg id

/-- `list_downloads` (downloads.rs 225-229): clone every record. -/
def list_downloads (reg : Registry) : List DownloadInfo :=
  reg.map (fun e => e.2.info)

theorem regGet_regSet_self (reg : Registry) (id : String) (d d2 : DownloadRuntime)
    (h : regGet reg id = some d) : regGet (regSet reg id d2) id = some d2 := by
  induction reg with
  | nil => simp [regGet] at h
  | cons e t ih =>
    by_cases he : e.1 = id
    · simp [regGet, regSet, he]
    · simp only [regGet, regSet, he, if_false] at h ⊢
      exact ih h

theorem regGet_regRemove_self (reg : Registry) (id : String) :
    regGet (regRemove reg id) id = none := by
  induction reg with
  | nil => rfl
  | cons e t ih =>
    by_cases he : e.1 = id
    · simpa [regRemove, he] using ih
    · simpa [regRemove, regGet, he] using ih

theorem list_downloads_regRemove (reg : Registry) (id : String)
    (hwf : ∀ e ∈ reg, e.2.info.id = e.1) :
    ∀ r ∈ list_downloads (regRemove reg id), r.id ≠ id := by
  induction reg with
  | nil => intro r hr; simp [list_downloads, regRemove] at hr
  | cons e t ih =>
    intro r hr
    have hwft : ∀ e2 ∈ t, e2.2.info.id = e2.1 :=
      fun e2 he2 => hwf e2 (List.mem_cons_of_mem e he2)
    by_cases he : e.1 = id
    · rw [regRemove, if_pos he] at hr
      exact ih hwft r hr
    · rw [regRemove, if_neg he] at hr
      rw [list_downloads, List.map_cons] at hr
      rcases List.mem_cons.mp hr with hr1 | hr2

      · rw [hr1, hwf e (List.mem_cons_self e t)]
        exact he
      · exact ih hwft r hr2

/-! ## Control API (downloads.rs 225-473)

Each Tauri command is a pure function of the registry, the command arguments,
and the current wall-clock time `now` (`now_ms()`). Commands that spawn an HTTP
Worker additionally return a `Bool` spawn flag. -/

/-- `pause_download` (downloads.rs 340-358). -/
def pause_download (reg : Registry) (id : String) (now : Int) :
    Except String DownloadInfo × Registry :=
  match regGet reg id with
  | none => (.error "Download not found", reg)
  | some d =>
    if d.info.status ≠ DownloadStatus.running then (.ok d.info, reg)
    else
      let d2 : DownloadRuntime :=
        { info := { d.info with status := .paused, updated_at := now },
          cancelTripped := true }
      (.ok d2.info, regSet reg id d2)

/-- `resume_download` (downloads.rs 360-396). -/
def resume_download (reg : Registry) (id : String) (now : Int) :
    Except String DownloadInfo × Registry × Bool :=
  match regGet reg id with
  | none => (.error "Download not found", reg, false)
  | some d =>
    if d.info.kind ≠ DownloadKind.http then
      (.error "Resume is only available for HTTP downloads.", reg, false)
    else if d.info.status = DownloadStatus.completed then
      (.ok d.info, reg, false)
    else if d.info.resume_supported = false ∧ 0 < d.info.downloaded_bytes then
      (.error "Server does not support resume. Restart the download instead.", reg, false)
    else
      let d2 : DownloadRuntime :=
        { info := { d.info with status := .queued, error := none, updated_at := now },
          cancelTripped := false }
      (.ok d2.info, regSet reg id d2, true)

/-- `cancel_download` (downloads.rs 398-416). -/
def cancel_download (reg : Registry) (id : String) (now : Int) :
    Except String DownloadInfo × Registry :=
  match regGet reg id with
  | none => (.error "Download not found", reg)
  | some d =>
    if d.info.status = DownloadStatus.completed ∨ d.info.status = DownloadStatus.canceled then
      (.ok d.info, reg)
    else
      let d2 : DownloadRuntime :=
        { info := { d.info with status := .canceled, updated_at := now },
          cancelTripped := true }
      (.ok d2.info, regSet reg id d2)

/-- `restart_download` (downloads.rs 418-451). The best-effort deletion of the
temp file is an external filesystem effect and does not touch the registry. -/
def restart_download (reg : Registry) (id : String) (now : Int) :
    Except String DownloadInfo × Registry × Bool :=
  match regGet reg id with
  | none => (.error "Download not found", reg, false)
  | some d =>
    if d.info.kind ≠ DownloadKind.http then
      (.error "Restart is only available for HTTP downloads.", reg, false)
    else
      let info2 : DownloadInfo :=
        { d.info with
          downloaded_bytes := 0
          total_bytes := none
          speed_bps := 0
          status := .queued
          error := none
          updated_at := now }
      let d2 : DownloadRuntime := { info := info2, cancelTripped := false }
      (.ok d2.info, regSet reg id d2, true)

/-- `remove_download` (downloads.rs 453-473). -/
def remove_download (reg : Registry) (id : String) :
    Except String Unit × Registry :=
  match regGet reg id with
  | none => (.error "Download not found", reg)
  | some d =>
    if d.info.status = DownloadStatus.running ∨ d.info.status = DownloadStatus.queued ∨
        d.info.status = DownloadStatus.paused then
      (.error "Stop the download before removing it.", reg)
    else
      (.ok (), regRemove reg id)

/-- The read-snapshot phase of `run_download` (downloads.rs 475-483): fetch the
record and abort silently — before any registry mutation — when the record is
missing or its kind is not Http. Returns the snapshot the Worker proceeds with. -/
def run_download_snapshot (reg : Registry) (id : String) : Option DownloadInfo :=
  match regGet reg id with
  | none => none
  | some d => if d.info.kind ≠ DownloadKind.http then none else some d.info

/-! ## `start_download` (downloads.rs 206-338) -/

/-- Character-wise lowercasing standing in for Rust `str::to_lowercase`
(Unicode full lowercasing; the two agree on ASCII, which is all that
`"magnet:"` / `".torrent"` matching inspects). -/
def rustLower (s : String) : String := String.mk (s.data.map Char.toLower)

/-- Rust `str::trim` on a `String`. -/
def rustTrimString (s : String) : String := String.mk (rustTrimL s.data)

/-- `parse_kind` (downloads.rs 206-223). -/
def parse_kind (kind : Option String) (url : String) : DownloadKind :=
  match kind with
  | some k =>
    if k = "magnet" then .magnet
    else if k = "torrent" then .torrent
    else .http
  | none =>
    if (rustLower (rustTrimString url)).startsWith "magnet:" then .magnet
    else if (rustLower (rustTrimString url)).endsWith ".torrent" then .torrent
    else .http

/-- The `safe_name` computation in `start_download` (downloads.rs 264-268):
`file_name.as_deref().map(sanitize_file_name).filter(|v| !v.is_empty())
.unwrap_or_else(|| file_name_from_url(&parsed))`, with `url_name` standing for
`file_name_from_url(&parsed)`. -/
def choose_safe_name (file_name : Option String) (url_name : String) : String :=
  match file_name with
  | some v => if sanitize_file_name v ≠ "" then sanitize_file_name v else url_name
  | none => url_name

/-- The external inputs of one `start_download` call: the filesystem
(`Path::exists`), the resolved download directory (§4.G), the fresh UUID, the
clock, whether `Url::parse` succeeds, the parsed scheme, and
`file_name_from_url(&parsed)`. -/
structure StartOracle where
  fsExists : String → Bool
  downloadDir : String
  newId : String
  now : Int
  urlParses : Bool
  urlScheme : String
  urlName : String

/-- The `file_name` field of a Magnet/Torrent record (downloads.rs 316-320):
sanitized argument when present and nonempty, else `"External Transfer"`. -/
def external_file_name (file_name : Option String) : String :=
  match file_name with
  | some v => if sanitize_file_name v ≠ "" then sanitize_file_name v
              else "External Transfer"
  | none => "External Transfer"

/-- `start_download` (downloads.rs 242-338). Returns the command result, the
new registry, and whether an HTTP Worker was spawned. -/
def start_download (reg : Registry) (o : StartOracle) (url : String)
    (file_name : Option String) (kindTag : Option String) :
    Except String DownloadInfo × Registry × Bool :=
  let kind := parse_kind kindTag url
  if kind = DownloadKind.http then
    if o.urlParses = false then (.error "Invalid URL", reg, false)
    else if o.urlScheme ≠ "http" ∧ o.urlScheme ≠ "https" then
      (.error "Only http and https URLs are supported.", reg, false)
    else
      let safe_name := choose_safe_name file_name o.urlName
      let final_path := build_unique_path o.fsExists o.downloadDir safe_name
      let fc := lastCompL final_path.data
      let info : DownloadInfo :=
        { id := o.newId
          url := url
          file_name := if fc = [] ∨ fc = ['.'] ∨ fc = ['.', '.'] then safe_name
                       else String.mk fc
          save_path := final_path
          temp_path := temp_path_of final_path
          status := .queued
          total_bytes := none
          downloaded_bytes := 0
          speed_bps := 0
          error := none
          created_at := o.now
          updated_at := o.now
          resume_supported := true
          kind := kind }
      (.ok info, regInsert reg o.newId { info := info, cancelTripped := false }, true)
  else
    let info : DownloadInfo :=
      { id := o.newId
        url := url
        file_name := external_file_name file_name
        save_path := ""
        temp_path := ""
        status := .external
        total_bytes := none
        downloaded_bytes := 0
        speed_bps := 0
        error := none
        created_at := o.now
        updated_at := o.now
        resume_supported := false
        kind := kind }
    (.ok info, regInsert reg o.newId { info := info, cancelTripped := false }, false)

/-! ## Worker response validation (downloads.rs 541-568) -/

/-- `StatusCode::is_success()`: a 2xx status. -/
def is2xx (code : Nat) : Bool := decide (200 ≤ code ∧ code < 300)

/-- Outcome of the response-validation block: either a terminal `Failed`
update (error message, and whether `resume_supported` is set to `false`), or
proceed with the body stream. -/
inductive RespOutcome
  | fail (msg : String) (clear_resume : Bool)
  | proceed
  deriving DecidableEq

/-- The response-validation block of `run_download` (downloads.rs 541-568),
as a function of the HTTP status code and the `downloaded_bytes` offset that
decided whether a `Range` header was sent. `statusShow` renders a status code
the way `reqwest::StatusCode`'s `Display` does (code plus reason phrase). -/
def validate_response (statusShow : Nat → String) (code : Nat)
    (downloaded_bytes : Nat) : RespOutcome :=
  if code = 416 then
    .fail "Range not satisfiable. Restart the download." true
  else if 0 < downloaded_bytes ∧ code ≠ 206 then
    .fail "Server does not support resume" true
  else if is2xx code = false then
    .fail ("Download failed: " ++ statusShow code) false
  else
    .proceed

/-! ## Rate limiter (downloads.rs 231-240 and 646-662) -/

/-- `SpeedLimits` (downloads.rs 39-42). -/
structure SpeedLimits where
  download_bps : Option Nat
  upload_bps : Option Nat
  deriving DecidableEq

/-- `set_speed_limits` (downloads.rs 231-240): store, normalizing zero to
absent (`filter(|value| *value > 0)`). -/
def set_speed_limits (limits : SpeedLimits) : SpeedLimits :=
  { download_bps := limits.download_bps.filter (fun v => decide (0 < v))
    upload_bps := limits.upload_bps.filter (fun v => decide (0 < v)) }

/-- The per-chunk rate-limit block of `run_download` (downloads.rs 646-662),
with `f64` arithmetic carried out over `ℚ`. Inputs: the stored download limit
(`speed_limits.download_bps`, read `unwrap_or(0)`), the bytes consumed in the
current window, the incoming chunk length, and the two elapsed-seconds
readings `window_start.elapsed()` takes (line 652, before any sleep, and line
658, after it). Returns the sleep duration requested (`none` when no sleep)
and whether the window was reset. -/
def rate_limit_step (stored : Option Nat) (window_bytes chunk_len : Nat)
    (e1 e2 : ℚ) : Option ℚ × Bool :=
  let limit := stored.getD 0
  if 0 < limit then
    let projected : ℚ := ((window_bytes + chunk_len : Nat) : ℚ) / (limit : ℚ)
    (if projected > e1 then some (min (projected - e1) (3 / 2)) else none,
     decide (1 ≤ e2))
  else (none, false)

/-! ## Sample records used by counterexamples and witnesses -/

/-- A Magnet record as created by `start_download`'s non-Http branch. -/
def magnetInfo : DownloadInfo :=
  { id := "m1"
    url := "magnet:?xt=urn:btih:abc"
    file_name := "External Transfer"
    save_path := ""
    temp_path := ""
    status := .external
    total_bytes := none
    downloaded_bytes := 0
    speed_bps := 0
    error := none
    created_at := 0
    updated_at := 0
    resume_supported := false
    kind := .magnet }

def magnetReg : Registry := [("m1", { info := magnetInfo, cancelTripped := false })]

/-- A paused HTTP record with received bytes. -/
def httpInfo : DownloadInfo :=
  { id := "h1"
    url := "https://example.test/a.bin"
    file_name := "a.bin"
    save_path := "/dl/a.bin"
    temp_path := "/dl/a.bin.part"
    status := .paused
    total_bytes := some 100
    downloaded_bytes := 40
    speed_bps := 0
    error := some "Stream error: reset"
    created_at := 1
    updated_at := 2
    resume_supported := true
    kind := .http }

def httpReg : Registry := [("h1", { info := httpInfo, cancelTripped := true })]

/-- A completed HTTP record. -/
def doneInfo : DownloadInfo :=
  { httpInfo with id := "h2", status := .completed, downloaded_bytes := 100, error := none }

def doneReg : Registry := [("h2", { info := doneInfo, cancelTripped := false })]

/-! ## Claims C1, C2, C8, C9, C10 -/

/-- C1 (amended): for a record whose kind is not Http (status `External`),
start creates it as External, `run_download` returns without mutating the
registry, resume and restart return errors, pause is a no-op — but `cancel`
is not a no-op: because `External` is not in `{Completed, Canceled}`, cancel
sets the status to `Canceled` (and trips the handle), so an External record
can leave `External`. -/
theorem c1_external_records_amended :
    (∀ (reg : Registry) (id : String) (d : DownloadRuntime) (now : Int),
      regGet reg id = some d → d.info.kind ≠ DownloadKind.http →
      d.info.status = DownloadStatus.external →
      resume_download reg id now =
        (.error "Resume is only available for HTTP downloads.", reg, false) ∧
      restart_download reg id now =
        (.error "Restart is only available for HTTP downloads.", reg, false) ∧
      pause_download reg id now = (.ok d.info, reg) ∧
      run_download_snapshot reg id = none ∧
      cancel_download reg id now =
        (.ok { d.info with status := .canceled, updated_at := now },
         regSet reg id { info := { d.info with status := .canceled, updated_at := now },
                         cancelTripped := true })) ∧
    (∀ (reg : Registry) (o : StartOracle) (url : String) (fn tag : Option String),
      parse_kind tag url ≠ DownloadKind.http →
      ∃ info, start_download reg o url fn tag =
          (.ok info, regInsert reg o.newId { info := info, cancelTripped := false }, false) ∧
        info.status = DownloadStatus.external ∧ info.kind = parse_kind tag url ∧
        info.resume_supported = false) := by
  constructor
  · intro reg id d now h hkind hstat
    refine ⟨?_, ?_, ?_, ?_, ?_⟩
    · simp only [resume_download, h]
      rw [if_pos hkind]
    · simp only [restart_download, h]
      rw [if_pos hkind]
    · simp only [pause_download, h]
      rw [if_pos (by rw [hstat]; exact fun hh => DownloadStatus.noConfusion hh)]
    · simp only [run_download_snapshot, h]
      rw [if_pos hkind]
    · simp only [cancel_download, h]
      rw [if_neg (by rw [hstat]; rintro (hh | hh) <;> exact DownloadStatus.noConfusion hh)]
  · intro reg o url fn tag hkind
    refine ⟨{ id := o.newId, url := url, file_name := external_file_name fn,
              save_path := "", temp_path := "", status := .external, total_bytes := none,
              downloaded_bytes := 0, speed_bps := 0, error := none, created_at := o.now,
              updated_at := o.now, resume_supported := false, kind := parse_kind tag url },
            ?_, rfl, rfl, rfl⟩
    simp only [start_download]
    rw [if_neg hkind]

/-- C1 counterexample: cancelling a Magnet record (status `External`) changes
its status to `Canceled`, refuting "cancel leaves it unchanged" and
"never transitions out of External". -/
theorem c1_cancel_counterexample :
    (cancel_download magnetReg "m1" 5).1 =
      .ok { magnetInfo with status := .canceled, updated_at := 5 } ∧
    (regGet (cancel_download magnetReg "m1" 5).2 "m1").map (fun d => d.info.status) =
      some DownloadStatus.canceled ∧
    DownloadStatus.canceled ≠ DownloadStatus.external := by
  refine ⟨rfl, rfl, by decide⟩

/-- C1 witness. -/
theorem c1_witness :
    pause_download magnetReg "m1" 7 = (.ok magnetInfo, magnetReg) ∧
    run_download_snapshot magnetReg "m1" = none ∧
    resume_download magnetReg "m1" 7 =
      (.error "Resume is only available for HTTP downloads.", magnetReg, false) := by
  have h := c1_external_records_amended.1 magnetReg "m1"
    { info := magnetInfo, cancelTripped := false } 7 rfl (by decide) (by decide)
  exact ⟨h.2.2.1, h.2.2.2.1, h.1⟩

/-- C2: the five cases of `resume_download` — absent id, non-Http kind,
already Completed, resume unsupported with received bytes, and the spawning
case that installs a fresh (untripped) cancellation handle, sets status
Queued, clears the error, and spawns a Worker. -/
theorem c2_resume_semantics (reg : Registry) (id : String) (now : Int) :
    (regGet reg id = none →
      resume_download reg id now = (.error "Download not found", reg, false)) ∧
    (∀ d, regGet reg id = some d →
      (d.info.kind ≠ DownloadKind.http →
        resume_download reg id now =
          (.error "Resume is only available for HTTP downloads.", reg, false)) ∧
      (d.info.kind = DownloadKind.http → d.info.status = DownloadStatus.completed →
        resume_download reg id now = (.ok d.info, reg, false)) ∧
      (d.info.kind = DownloadKind.http → d.info.status ≠ DownloadStatus.completed →
        d.info.resume_supported = false → 0 < d.info.downloaded_bytes →
        resume_download reg id now =
          (.error "Server does not support resume. Restart the download instead.", reg, false)) ∧
      (d.info.kind = DownloadKind.http → d.info.status ≠ DownloadStatus.completed →
        (d.info.resume_supported = true ∨ d.info.downloaded_bytes = 0) →
        resume_download reg id now =
          (.ok { d.info with status := .queued, error := none, updated_at := now },
           regSet reg id
             { info := { d.info with status := .queued, error := none, updated_at := now },
               cancelTripped := false },
           true))) := by
  constructor
  · intro h
    simp only [resume_download, h]
  · intro d h
    refine ⟨?_, ?_, ?_, ?_⟩
    · intro hkind
      simp only [resume_download, h]
      rw [if_pos hkind]
    · intro hkind hstat
      simp only [resume_download, h]
      rw [if_neg (by rw [hkind]; exact fun hh => hh rfl), if_pos hstat]
    · intro hkind hstat hsup hbytes
      simp only [resume_download, h]
      rw [if_neg (by rw [hkind]; exact fun hh => hh rfl), if_neg hstat,
        if_pos ⟨hsup, hbytes⟩]
    · intro hkind hstat hcase
      simp only [resume_download, h]
      rw [if_neg (by rw [hkind]; exact fun hh => hh rfl), if_neg hstat,
        if_neg (by rcases hcase with hc | hc <;> rintro ⟨h1, h2⟩
                   · rw [hc] at h1; exact Bool.noConfusion h1
                   · omega)]

/-- C2 witness: resuming a paused, resume-supported HTTP record. -/
theorem c2_witness :
    resume_download httpReg "h1" 9 =
      (.ok { httpInfo with status := .queued, error := none, updated_at := 9 },
       regSet httpReg "h1"
         { info := { httpInfo with status := .queued, error := none, updated_at := 9 },
           cancelTripped := false },
       true) :=
  (((c2_resume_semantics httpReg "h1" 9).2 _ rfl).2.2.2) (by decide) (by decide)
    (Or.inl (by decide))

/-- C8: `remove_download` — absent id errors; a Running/Queued/Paused record
errors with "Stop the download before removing it." and leaves the registry
unchanged; otherwise the record is dropped and `list_downloads` no longer
contains its id. -/
theorem c8_remove_semantics (reg : Registry) (id : String) :
    (regGet reg id = none →
      remove_download reg id = (.error "Download not found", reg)) ∧
    (∀ d, regGet reg id = some d →
      (d.info.status = DownloadStatus.running ∨ d.info.status = DownloadStatus.queued ∨
          d.info.status = DownloadStatus.paused →
        remove_download reg id = (.error "Stop the download before removing it.", reg)) ∧
      (d.info.status ≠ DownloadStatus.running → d.info.status ≠ DownloadStatus.queued →
        d.info.status ≠ DownloadStatus.paused →
        remove_download reg id = (.ok (), regRemove reg id) ∧
        regGet (remove_download reg id).2 id = none ∧
        ((∀ e ∈ reg, e.2.info.id = e.1) →
          ∀ r ∈ list_downloads (remove_download reg id).2, r.id ≠ id))) := by
  constructor
  · intro h
    simp only [remove_download, h]
  · intro d h
    constructor
    · intro hbad
      simp only [remove_download, h]
      rw [if_pos hbad]
    · intro h1 h2 h3
      have hrm : remove_download reg id = (.ok (), regRemove reg id) := by
        simp only [remove_download, h]
        rw [if_neg (by rintro (hh | hh | hh) <;> [exact h1 hh; exact h2 hh; exact h3 hh])]
      refine ⟨hrm, ?_, ?_⟩
      · rw [hrm]
        exact regGet_regRemove_self reg id
      · intro hwf
        rw [hrm]
        exact list_downloads_regRemove reg id hwf

/-- C8 witness: removing a completed record. -/
theorem c8_witness :
    remove_download doneReg "h2" = (.ok (), regRemove doneReg "h2") ∧
    regGet (remove_download doneReg "h2").2 "h2" = none ∧
    ∀ r ∈ list_downloads (remove_download doneReg "h2").2, r.id ≠ "h2" := by
  have h := ((c8_remove_semantics doneReg "h2").2 _ rfl).2
    (by decide) (by decide) (by decide)
  exact ⟨h.1, h.2.1, h.2.2 (by decide)⟩

/-- C9: pause on a non-Running record, cancel on a Completed or Canceled
record, and resume on a Completed Http record all return the current record
and leave the registry — fields, `updated_at`, and the cancellation handle —
untouched, and spawn nothing. -/
theorem c9_terminal_noops (reg : Registry) (id : String) (now : Int)
    (d : DownloadRuntime) (h : regGet reg id = some d) :
    (d.info.status ≠ DownloadStatus.running →
      pause_download reg id now = (.ok d.info, reg)) ∧
    (d.info.status = DownloadStatus.completed ∨ d.info.status = DownloadStatus.canceled →
      cancel_download reg id now = (.ok d.info, reg)) ∧
    (d.info.kind = DownloadKind.http → d.info.status = DownloadStatus.completed →
      resume_download reg id now = (.ok d.info, reg, false)) := by
  refine ⟨?_, ?_, ?_⟩
  · intro hstat
    simp only [pause_download, h]
    rw [if_pos hstat]
  · intro hstat
    simp only [cancel_download, h]
    rw [if_pos hstat]
  · intro hkind hstat
    simp only [resume_download, h]
    rw [if_neg (by rw [hkind]; exact fun hh => hh rfl), if_pos hstat]

/-- C9 witness: a completed HTTP record. -/
theorem c9_witness :
    pause_download doneReg "h2" 11 = (.ok doneInfo, doneReg) ∧
    cancel_download doneReg "h2" 11 = (.ok doneInfo, doneReg) ∧
    resume_download doneReg "h2" 11 = (.ok doneInfo, doneReg, false) := by
  have h := c9_terminal_noops doneReg "h2" 11
    { info := doneInfo, cancelTripped := false } rfl
  exact ⟨h.1 (by decide), h.2.1 (Or.inl (by decide)), h.2.2 (by decide) (by decide)⟩

/-- C10: when the `file_name` argument is present, the name fed to unique-path
allocation is always its sanitization (the URL-derived name is never used, for
any argument: the empty-string fallback is unreachable because
`sanitize_file_name` never returns an empty string); the URL-derived name is
used exactly when the argument is absent. -/
theorem c10_explicit_name_wins (arg url_name : String) :
    choose_safe_name (some arg) url_name = sanitize_file_name arg ∧
    choose_safe_name none url_name = url_name := by
  constructor
  · show (if sanitize_file_name arg ≠ "" then sanitize_file_name arg else url_name) =
      sanitize_file_name arg
    rw [if_pos (sanitize_file_name_ne_empty arg)]
  · rfl

/-! ## Claims C4 and C5 -/

/-- C4: response validation — 416 yields Failed "Range not satisfiable.
Restart the download." with `resume_supported` cleared; a sent Range with a
non-206 reply yields Failed "Server does not support resume" with
`resume_supported` cleared; any other non-success status yields
Failed "Download failed: {status}"; and 416 takes precedence over the
range/206 check. -/
theorem c4_response_validation (statusShow : Nat → String) (code db : Nat) :
    (code = 416 →
      validate_response statusShow code db =
        .fail "Range not satisfiable. Restart the download." true) ∧
    (code ≠ 416 → 0 < db → code ≠ 206 →
      validate_response statusShow code db =
        .fail "Server does not support resume" true) ∧
    (code ≠ 416 → (db = 0 ∨ code = 206) → is2xx code = false →
      validate_response statusShow code db =
        .fail ("Download failed: " ++ statusShow code) false) ∧
    (0 < db →
      validate_response statusShow 416 db =
        .fail "Range not satisfiable. Restart the download." true) := by
  refine ⟨?_, ?_, ?_, ?_⟩
  · intro h
    unfold validate_response
    rw [if_pos h]
  · intro h1 h2 h3
    unfold validate_response
    rw [if_neg h1, if_pos ⟨h2, h3⟩]
  · intro h1 h2 h3
    unfold validate_response
    rw [if_neg h1, if_neg (by rcases h2 with hc | hc <;> rintro ⟨hb1, hb2⟩
                              · omega
                              · exact hb2 hc),
      if_pos h3]
  · intro h
    unfold validate_response
    rw [if_pos rfl]

/-- C4 witness: 416 precedence with bytes received, 200 after a Range request,
and a plain 404 failure. -/
theorem c4_witness :
    validate_response (fun c => toString c) 416 5 =
      .fail "Range not satisfiable. Restart the download." true ∧
    validate_response (fun c => toString c) 200 5 =
      .fail "Server does not support resume" true ∧
    validate_response (fun c => toString c) 404 0 =
      .fail ("Download failed: " ++ toString 404) false := by
  refine ⟨?_, ?_, ?_⟩
  · exact (c4_response_validation (fun c => toString c) 416 5).2.2.2 (by omega)
  · exact (c4_response_validation (fun c => toString c) 200 5).2.1
      (by omega) (by omega) (by omega)
  · exact (c4_response_validation (fun c => toString c) 404 0).2.2.1
      (by omega) (Or.inl rfl) (by decide)

/-- C5: with a positive stored limit `L`, the Worker sleeps exactly when the
projected window finish time `p = (w + chunk)/L` exceeds the elapsed time, the
sleep lasts `min (p - e, 1.5)` and so never exceeds 1.5 s, and the window is
reset exactly when the (post-sleep) elapsed reading is at least 1 s; with no
stored limit — absent, or zero normalized to absent by `set_speed_limits` —
no rate-limit sleep occurs. -/
theorem c5_rate_limit_step (L window_bytes chunk_len : Nat) (e1 e2 : ℚ) :
    (0 < L →
      ((rate_limit_step (some L) window_bytes chunk_len e1 e2).1 =
        if ((window_bytes + chunk_len : Nat) : ℚ) / (L : ℚ) > e1 then
          some (min (((window_bytes + chunk_len : Nat) : ℚ) / (L : ℚ) - e1) (3 / 2))
        else none) ∧
      (∀ d, (rate_limit_step (some L) window_bytes chunk_len e1 e2).1 = some d →
        d ≤ 3 / 2) ∧
      ((rate_limit_step (some L) window_bytes chunk_len e1 e2).2 = true ↔ 1 ≤ e2)) ∧
    rate_limit_step none window_bytes chunk_len e1 e2 = (none, false) ∧
    rate_limit_step
      (set_speed_limits { download_bps := some 0, upload_bps := none }).download_bps
      window_bytes chunk_len e1 e2 = (none, false) := by
  refine ⟨?_, rfl, rfl⟩
  intro hL
  have hred : rate_limit_step (some L) window_bytes chunk_len e1 e2 =
      ((if ((window_bytes + chunk_len : Nat) : ℚ) / (L : ℚ) > e1 then
          some (min (((window_bytes + chunk_len : Nat) : ℚ) / (L : ℚ) - e1) (3 / 2))
        else none),
       decide (1 ≤ e2)) := by
    unfold rate_limit_step
    rw [if_pos (by simpa using hL)]
    rfl
  refine ⟨by rw [hred], ?_, by rw [hred]; exact decide_eq_true_iff⟩
  intro d hd
  rw [hred] at hd
  by_cases hc : ((window_bytes + chunk_len : Nat) : ℚ) / (L : ℚ) > e1
  · rw [if_pos hc] at hd
    have : min (((window_bytes + chunk_len : Nat) : ℚ) / (L : ℚ) - e1) (3 / 2) = d :=
      Option.some.inj hd
    rw [← this]
    exact min_le_right _ _
  · rw [if_neg hc] at hd
    exact absurd hd (by simp)

/-- C5 witness: limit 2 B/s, window 1 B, chunk 2 B, elapsed 0 s: projected
finish 1.5 s, sleep `min (1.5, 1.5) = 1.5`; second reading 1 s resets. -/
theorem c5_witness :
    (rate_limit_step (some 2) 1 2 0 1).1 = some (3 / 2) ∧
    (rate_limit_step (some 2) 1 2 0 1).2 = true := by
  have h := (c5_rate_limit_step 2 1 2 0 1).1 (by omega)
  refine ⟨?_, h.2.2.mpr le_rfl⟩
  rw [h.1]
  norm_num

end FDM
